import Mathlib

/-!
Verification of the fitness-studio booking core (`fitnessApi.py`).

The store is a pair of in-memory lists (classes and bookings).  Times are
modelled as absolute instants (minutes on an integer timeline); an aware
datetime is such an instant together with its originating zone's UTC offset.
Timezone databases are modelled as partial maps from identifier strings to
zones (offset plus abbreviation); `strftime "%Y-%m-%d %H:%M:%S %Z%z"` is
modelled by rendering the local wall-clock value followed by the zone
abbreviation and offset.
-/

namespace FitnessApi

/-- A timezone: a fixed UTC offset in minutes and an abbreviation
(models a `pytz` zone as used here). -/
structure Tz where
  offset : Int
  abbr : String
deriving DecidableEq

/-- A timezone database: maps identifier strings to zones
(models `pytz.timezone`, which raises on unknown identifiers). -/
def TzDb : Type := String → Option Tz

/-- An aware datetime: an absolute instant (minutes since a fixed epoch on
the UTC timeline) plus the offset of the zone it was localized in.
`IST.localize(datetime(...))` produces such a value. -/
structure AwareDatetime where
  instant : Int
  origOffset : Int
deriving DecidableEq

/-- IST offset: +05:30 = 330 minutes. -/
def istOffset : Int := 330

/-- Localizing a wall-clock value in IST: the absolute instant is the
wall-clock reading minus the zone offset. -/
def istLocalize (wallClock : Int) : AwareDatetime :=
  { instant := wallClock - istOffset, origOffset := istOffset }

/-- Mirrors the `FitnessClass` pydantic model. -/
structure FitnessClass where
  id : Int
  name : String
  instructor : String
  schedule : AwareDatetime
  capacity : Int
  available_slots : Int
deriving DecidableEq

/-- Mirrors the `Booking` pydantic model. `booking_time` is an absolute
instant on the UTC timeline. -/
structure Booking where
  id : Nat
  class_id : Int
  class_name : String
  client_name : String
  client_email : String
  booking_time : Int
deriving DecidableEq

/-- The shared in-memory store: the module-level `classes` and `bookings`
lists. -/
structure State where
  classes : List FitnessClass
  bookings : List Booking
deriving DecidableEq

/-- The seeded catalog (the three classes built at import time, with
schedules localized in IST; wall-clock values are minutes within the day
2025-08-22). -/
def seedState : State :=
  { classes :=
      [ { id := 1, name := "Yoga", instructor := "Alice",
          schedule := istLocalize (8 * 60),
          capacity := 10, available_slots := 10 },
        { id := 2, name := "Zumba", instructor := "Bob",
          schedule := istLocalize (10 * 60),
          capacity := 12, available_slots := 12 },
        { id := 3, name := "HIIT", instructor := "Charlie",
          schedule := istLocalize (18 * 60),
          capacity := 15, available_slots := 15 } ],
    bookings := [] }

/-- The error taxonomy of the core (each raised as an `HTTPException`). -/
inductive ApiErr where
  | InvalidTimezone
  | ClassNotFound
  | NoSlotsAvailable
  | DuplicateBooking
deriving DecidableEq

/-- One entry of the `/classes` response: the dict built for each class. -/
structure ClassView where
  id : Int
  name : String
  instructor : String
  schedule : String
  capacity : Int
  available_slots : Int
deriving DecidableEq

/-- Renders `%z`: the UTC offset with sign (minutes kept as a number). -/
def formatOffset (o : Int) : String :=
  (if o < 0 then "-" else "+") ++ toString o.natAbs

/-- Models `converted_time.strftime("%Y-%m-%d %H:%M:%S %Z%z")` after
`astimezone(target_tz)`: the wall-clock reading in the target zone is the
absolute instant plus the target offset, followed by the zone abbreviation
and UTC offset.  Only the absolute instant of the stored datetime enters. -/
def formatInTz (instant : Int) (z : Tz) : String :=
  toString (instant + z.offset) ++ " " ++ z.abbr ++ formatOffset z.offset

/-- The view built for one class in `get_classes`. -/
def classView (z : Tz) (c : FitnessClass) : ClassView :=
  { id := c.id, name := c.name, instructor := c.instructor,
    schedule := formatInTz c.schedule.instant z,
    capacity := c.capacity, available_slots := c.available_slots }

/-- Route GET /classes (`get_classes`): validate the timezone against the database, then map
each class (in catalog order) to its view.  Never mutates the store. -/
def get_classes (db : TzDb) (cs : List FitnessClass) (timezone : String) :
    Except ApiErr (List ClassView) :=
  match db timezone with
  | none => .error .InvalidTimezone
  | some z => .ok (cs.map (classView z))

/-- Decrement `available_slots` of the object `next(c for c in classes if
c.id == cid)` refers to: the first class in the list with matching id. -/
def decFirst (cs : List FitnessClass) (cid : Int) : List FitnessClass :=
  match cs with
  | [] => []
  | c :: rest =>
      if c.id = cid then
        { c with available_slots := c.available_slots - 1 } :: rest
      else
        c :: decFirst rest cid

/-- Route POST /book (`book_class`): the result of the call together with the
store after the call.  Each `raise` leaves the store as it was; the success
path appends the new booking and decrements the booked class's slots.
`now` is `datetime.now(pytz.utc)`, the current instant on the UTC
timeline. -/
def book_class (s : State) (class_id : Int) (client_name client_email : String)
    (now : Int) : Except ApiErr Booking × State :=
  match s.classes.find? (fun c => c.id = class_id) with
  | none => (.error .ClassNotFound, s)
  | some fitness_class =>
      if fitness_class.available_slots ≤ 0 then
        (.error .NoSlotsAvailable, s)
      else if s.bookings.any (fun b =>
          b.client_email = client_email && b.class_id = class_id) then
        (.error .DuplicateBooking, s)
      else
        let new_booking : Booking :=
          { id := s.bookings.length + 1,
            class_id := fitness_class.id,
            class_name := fitness_class.name,
            client_name := client_name,
            client_email := client_email,
            booking_time := now }
        (.ok new_booking,
         { classes := decFirst s.classes class_id,
           bookings := s.bookings ++ [new_booking] })

/-- Route GET /bookings (`get_bookings`): `bookings if not email else
[b for b in bookings if b.client_email == email]`.  Python truthiness makes
`None` and the empty string both select the unfiltered branch. -/
def get_bookings (bs : List Booking) (email : Option String) : List Booking :=
  match email with
  | none => bs
  | some e => if e = "" then bs else bs.filter (fun b => b.client_email = e)

/-- The operations a client can issue against the store. -/
inductive Op where
  | listClasses (timezone : String)
  | book (class_id : Int) (client_name client_email : String) (now : Int)
  | queryBookings (email : Option String)

/-- Effect of one operation on the store.  `get_classes` and `get_bookings`
never mutate; `book_class` yields its post-state. -/
def stepOp (s : State) : Op → State
  | .listClasses _ => s
  | .book cid n e t => (book_class s cid n e t).2
  | .queryBookings _ => s

/-- States reachable from the seeded store by any sequence of operations. -/
inductive Reachable : State → Prop where
  | init : Reachable seedState
  | step (s : State) (op : Op) : Reachable s → Reachable (stepOp s op)

/- Decidable equality of results, used by concrete evaluations. -/
deriving instance DecidableEq for Except

/-- A small concrete timezone database used for concrete runs. -/
def db0 : TzDb := fun s =>
  if s = "UTC" then some { offset := 0, abbr := "UTC" }
  else if s = "Asia/Kolkata" then some { offset := 330, abbr := "IST" }
  else none

/-- The UTC zone of `db0`. -/
def utcTz : Tz := { offset := 0, abbr := "UTC" }

/-- The first seeded class. -/
def seedYoga : FitnessClass :=
  { id := 1, name := "Yoga", instructor := "Alice",
    schedule := istLocalize (8 * 60), capacity := 10, available_slots := 10 }

/-- A fixture: the Yoga class with its capacity exhausted. -/
def soldOutYoga : FitnessClass :=
  { id := 1, name := "Yoga", instructor := "Alice",
    schedule := istLocalize (8 * 60), capacity := 10, available_slots := 0 }

/-- A fixture store where the Yoga class is sold out AND the requesting
client already holds a booking for it, so the capacity-failure and
duplicate-failure conditions hold simultaneously. -/
def soldOutDupState : State :=
  { classes := [soldOutYoga],
    bookings := [{ id := 1, class_id := 1, class_name := "Yoga",
                   client_name := "Alice Q", client_email := "a@x.com",
                   booking_time := 5 }] }

/-- The booking produced by the first concrete successful call. -/
def exampleBooking : Booking :=
  { id := 1, class_id := 1, class_name := "Yoga", client_name := "Al",
    client_email := "a@x.com", booking_time := 100 }

/-- The store after the first concrete successful call. -/
def exampleAfter : State := (book_class seedState 1 "Al" "a@x.com" 100).2

/-- The store reached from the seed by one booking operation. -/
def stepOne : State := stepOp seedState (.book 1 "Al" "a@x.com" 100)

/-- The booking produced by a second concrete successful call. -/
def exampleBooking2 : Booking :=
  { id := 2, class_id := 2, class_name := "Zumba", client_name := "Bo",
    client_email := "b@x.com", booking_time := 200 }

/-- The store after the second concrete successful call. -/
def exampleAfter2 : State := (book_class stepOne 2 "Bo" "b@x.com" 200).2

/-- The store reached from the seed by two booking operations. -/
def stepTwo : State := stepOp stepOne (.book 2 "Bo" "b@x.com" 200)

/-- A concrete two-entry ledger. -/
def demoLedger : List Booking := stepTwo.bookings

/-- All fields of a class except `available_slots`. -/
def classFields (c : FitnessClass) : Int × String × String × AwareDatetime × Int :=
  (c.id, c.name, c.instructor, c.schedule, c.capacity)

/-- Invariant: every class's `available_slots` lies between 0 and its
capacity. -/
def SlotsOk (s : State) : Prop :=
  ∀ c ∈ s.classes, 0 ≤ c.available_slots ∧ c.available_slots ≤ c.capacity

/-- Invariant: the booking at position `i` of the ledger has id `i + 1`. -/
def IdsOk (bs : List Booking) : Prop :=
  ∀ i b0, bs[i]? = some b0 → b0.id = i + 1

/-- Invariant: no two ledger entries share their (class_id, client_email)
pair. -/
def PairOk (bs : List Booking) : Prop :=
  bs.Pairwise (fun a b => ¬(a.class_id = b.class_id ∧ a.client_email = b.client_email))

/- Helper: `decFirst` rewrites exactly the position `find?` located. -/
theorem decFirst_eq_set (cs : List FitnessClass) (cid : Int) (fc : FitnessClass)
    (h : cs.find? (fun c => c.id = cid) = some fc) :
    ∃ i, cs[i]? = some fc ∧
      decFirst cs cid = cs.set i { fc with available_slots := fc.available_slots - 1 } := by
  induction cs with
  | nil => simp [List.find?] at h
  | cons c rest ih =>
      by_cases hc : c.id = cid
      · rw [List.find?_cons_of_pos _ (by simpa using hc)] at h
        obtain rfl : c = fc := by injection h
        exact ⟨0, by simp, by simp [decFirst, hc]⟩
      · rw [List.find?_cons_of_neg _ (by simpa using hc)] at h
        obtain ⟨i, hi, hset⟩ := ih h
        exact ⟨i + 1, by simpa using hi, by simp [decFirst, hc, hset]⟩

/- Helper: shape of a successful `book_class` call. -/
theorem book_class_ok {s : State} {cid : Int} {n e : String} {t : Int} {b : Booking} {s2 : State}
    (h : book_class s cid n e t = (.ok b, s2)) :
    ∃ fc, s.classes.find? (fun c => c.id = cid) = some fc ∧
      0 < fc.available_slots ∧
      s.bookings.any (fun bk => bk.client_email = e && bk.class_id = cid) = false ∧
      b = { id := s.bookings.length + 1, class_id := fc.id, class_name := fc.name,
            client_name := n, client_email := e, booking_time := t } ∧
      s2 = { classes := decFirst s.classes cid, bookings := s.bookings ++ [b] } := by
  cases hf : s.classes.find? (fun c => c.id = cid) with
  | none => simp [book_class, hf] at h
  | some fc =>
      simp only [book_class, hf] at h
      by_cases hslot : fc.available_slots ≤ 0
      · simp [hslot] at h
      · rw [if_neg hslot] at h
        cases hdup : s.bookings.any (fun bk => bk.client_email = e && bk.class_id = cid) with
        | true => simp [hdup] at h
        | false =>
            rw [hdup] at h
            simp only [Bool.false_eq_true, if_false] at h
            have h1 := congrArg Prod.fst h
            have h2 := congrArg Prod.snd h
            simp only at h1 h2
            have hb : { id := s.bookings.length + 1, class_id := fc.id, class_name := fc.name,
                        client_name := n, client_email := e,
                        booking_time := t : Booking } = b := by
              injection h1
            subst hb
            exact ⟨fc, rfl, by omega, rfl, rfl, h2.symm⟩

/- Helper: a failing `book_class` call leaves the store untouched. -/
theorem book_class_err {s : State} {cid : Int} {n e : String} {t : Int} {err : ApiErr}
    (h : (book_class s cid n e t).1 = .error err) :
    (book_class s cid n e t).2 = s := by
  cases hf : s.classes.find? (fun c => c.id = cid) with
  | none => simp [book_class, hf]
  | some fc =>
      simp only [book_class, hf] at h ⊢
      by_cases hslot : fc.available_slots ≤ 0
      · simp [hslot]
      · rw [if_neg hslot] at h ⊢
        cases hdup : s.bookings.any (fun bk => bk.client_email = e && bk.class_id = cid) with
        | true => simp [hdup]
        | false => simp [hdup] at h

/- Helper: each operation preserves the slots invariant. -/
theorem slotsOk_step (s : State) (op : Op) (ih : SlotsOk s) : SlotsOk (stepOp s op) := by
  cases op with
  | listClasses tz => exact ih
  | queryBookings em => exact ih
  | book cid n e t =>
      show SlotsOk (book_class s cid n e t).2
      cases hr : book_class s cid n e t with
      | mk r s2 =>
          cases r with
          | error err =>
              have herr : (book_class s cid n e t).1 = Except.error err := by
                rw [hr]
              have hfr : (book_class s cid n e t).2 = s := book_class_err herr
              rw [hr] at hfr
              rw [hfr]
              exact ih
          | ok b =>
              obtain ⟨fc, hf, hpos, hdup, hb, hs2⟩ := book_class_ok hr
              obtain ⟨i, hgi, hset⟩ := decFirst_eq_set _ _ _ hf
              simp only [hs2, hset]
              intro c hc
              rcases List.mem_or_eq_of_mem_set hc with hmem | rfl
              · exact ih c hmem
              · have hfcmem : fc ∈ s.classes := List.mem_of_find?_eq_some hf
                have hfb := ih fc hfcmem
                refine ⟨by simp; omega, by simp; omega⟩

/- Helper: each operation preserves the sequential-id invariant. -/
theorem idsOk_step (s : State) (op : Op) (ih : IdsOk s.bookings) :
    IdsOk (stepOp s op).bookings := by
  cases op with
  | listClasses tz => exact ih
  | queryBookings em => exact ih
  | book cid n e t =>
      show IdsOk (book_class s cid n e t).2.bookings
      cases hr : book_class s cid n e t with
      | mk r s2 =>
          cases r with
          | error err =>
              have herr : (book_class s cid n e t).1 = Except.error err := by
                rw [hr]
              have hfr : (book_class s cid n e t).2 = s := book_class_err herr
              rw [hr] at hfr
              rw [hfr]
              exact ih
          | ok b =>
              obtain ⟨fc, hf, hpos, hdup, hb, hs2⟩ := book_class_ok hr
              simp only [hs2]
              intro i b0 hgb
              rw [List.getElem?_append] at hgb
              rcases Nat.lt_or_ge i s.bookings.length with hlt | hge
              · rw [if_pos hlt] at hgb
                exact ih i b0 hgb
              · rw [if_neg (by omega)] at hgb
                rcases eq_or_lt_of_le hge with heq | hgt
                · rw [← heq, Nat.sub_self] at hgb
                  simp at hgb
                  subst hgb
                  rw [hb]
                  simp
                  omega
                · have hnone : ([b] : List Booking)[i - s.bookings.length]? = none := by
                    apply List.getElem?_eq_none
                    simp
                    omega
                  rw [hnone] at hgb
                  cases hgb

/- Helper: each operation preserves the distinct-pair invariant. -/
theorem pairOk_step (s : State) (op : Op) (ih : PairOk s.bookings) :
    PairOk (stepOp s op).bookings := by
  cases op with
  | listClasses tz => exact ih
  | queryBookings em => exact ih
  | book cid n e t =>
      show PairOk (book_class s cid n e t).2.bookings
      cases hr : book_class s cid n e t with
      | mk r s2 =>
          cases r with
          | error err =>
              have herr : (book_class s cid n e t).1 = Except.error err := by
                rw [hr]
              have hfr : (book_class s cid n e t).2 = s := book_class_err herr
              rw [hr] at hfr
              rw [hfr]
              exact ih
          | ok b =>
              obtain ⟨fc, hf, hpos, hdup, hb, hs2⟩ := book_class_ok hr
              simp only [hs2]
              unfold PairOk
              rw [List.pairwise_append]
              refine ⟨ih, by simp, ?_⟩
              intro a ha b1 hb1
              simp only [List.mem_singleton] at hb1
              subst hb1
              have hfcid : fc.id = cid := by
                have := List.find?_some hf
                simpa using this
              simp only [List.any_eq_false, Bool.and_eq_true, decide_eq_true_eq,
                not_and] at hdup
              intro hcon
              obtain ⟨hcid, hemail⟩ := hcon
              rw [hb] at hcid hemail
              simp at hcid hemail
              exact hdup a ha hemail (by rw [hcid, hfcid])

/- Helper: sequential ids give a strictly increasing id sequence. -/
theorem idsOk_pairwise {bs : List Booking} (h : IdsOk bs) :
    (bs.map (fun b0 => b0.id)).Pairwise (fun x y => x < y) := by
  rw [List.pairwise_map]
  rw [List.pairwise_iff_get]
  intro i j hij
  have hi := h i.val (bs.get i) (by rw [List.getElem?_eq_getElem i.isLt]; rfl)
  have hj := h j.val (bs.get j) (by rw [List.getElem?_eq_getElem j.isLt]; rfl)
  rw [hi, hj]
  omega

/- Helper: the slots invariant holds in every reachable store. -/
theorem reachable_slotsOk (s : State) (h : Reachable s) : SlotsOk s := by
  induction h with
  | init => unfold SlotsOk; decide
  | step s1 op h1 ih => exact slotsOk_step s1 op ih

/- Helper: the sequential-id invariant holds in every reachable store. -/
theorem reachable_idsOk (s : State) (h : Reachable s) : IdsOk s.bookings := by
  induction h with
  | init => intro i b0 hgb; simp [seedState] at hgb
  | step s1 op h1 ih => exact idsOk_step s1 op ih

/- Helper: the distinct-pair invariant holds in every reachable store. -/
theorem reachable_pairOk (s : State) (h : Reachable s) : PairOk s.bookings := by
  induction h with
  | init => simp [PairOk, seedState]
  | step s1 op h1 ih => exact pairOk_step s1 op ih

/-- C1: for every class in the store, at every reachable state (after any
sequence of list-classes, create-booking and query-bookings operations
starting from the seeded state), 0 ≤ available_slots ≤ capacity. -/
theorem slots_bounded_in_reachable (s : State) (h : Reachable s) :
    ∀ c ∈ s.classes, 0 ≤ c.available_slots ∧ c.available_slots ≤ c.capacity :=
  reachable_slotsOk s h

theorem slots_bounded_in_reachable_witness :
    seedYoga ∈ seedState.classes ∧
      (0 ≤ seedYoga.available_slots ∧ seedYoga.available_slots ≤ seedYoga.capacity) :=
  ⟨by decide, slots_bounded_in_reachable seedState Reachable.init seedYoga (by decide)⟩

/-- C2: the three semantic checks of create-booking run in the fixed order
existence, capacity, duplicate, and the first failing check determines the
reported error even when several failure conditions hold at once: an absent
class reports ClassNotFound; a found class with no free slot reports
NoSlotsAvailable whatever the ledger holds; a found class with a free slot
but an existing (class_id, client_email) booking reports DuplicateBooking. -/
theorem book_class_check_order (s : State) (cid : Int) (n e : String) (t : Int) :
    (s.classes.find? (fun c => c.id = cid) = none →
       (book_class s cid n e t).1 = .error .ClassNotFound) ∧
    (∀ fc, s.classes.find? (fun c => c.id = cid) = some fc →
       fc.available_slots ≤ 0 →
       (book_class s cid n e t).1 = .error .NoSlotsAvailable) ∧
    (∀ fc, s.classes.find? (fun c => c.id = cid) = some fc →
       0 < fc.available_slots →
       s.bookings.any (fun b => b.client_email = e && b.class_id = cid) = true →
       (book_class s cid n e t).1 = .error .DuplicateBooking) := by
  refine ⟨fun hf => ?_, fun fc hf hslot => ?_, fun fc hf hslot hdup => ?_⟩
  · simp [book_class, hf]
  · simp [book_class, hf, hslot]
  · have hns : ¬fc.available_slots ≤ 0 := by omega
    simp [book_class, hf, hdup, hns]

theorem book_class_check_order_witness :
    soldOutDupState.classes.find? (fun c => c.id = 1) = some soldOutYoga ∧
    soldOutYoga.available_slots ≤ 0 ∧
    soldOutDupState.bookings.any
      (fun b => b.client_email = "a@x.com" && b.class_id = 1) = true ∧
    (book_class soldOutDupState 1 "Alice Q" "a@x.com" 100).1 =
      .error .NoSlotsAvailable :=
  ⟨by decide, by decide, by decide,
   (book_class_check_order soldOutDupState 1 "Alice Q" "a@x.com" 100).2.1
     soldOutYoga (by decide) (by decide)⟩

/-- C3: every successful create-booking appends exactly one Booking to the
ledger (the returned one), records the requested client data and the UTC
`now` instant as booking_time, copies the looked-up class's name into
class_name, and decrements exactly that class's available_slots by exactly
one (all other positions of the class list are untouched by the `set`). -/
theorem book_class_success_shape (s : State) (cid : Int) (n e : String) (t : Int)
    (b : Booking) (s2 : State) (h : book_class s cid n e t = (.ok b, s2)) :
    s2.bookings = s.bookings ++ [b] ∧
    b.booking_time = t ∧ b.client_name = n ∧ b.client_email = e ∧
    b.id = s.bookings.length + 1 ∧
    ∃ fc i, s.classes.find? (fun c => c.id = cid) = some fc ∧
      s.classes[i]? = some fc ∧ b.class_name = fc.name ∧ b.class_id = fc.id ∧
      s2.classes = s.classes.set i
        { fc with available_slots := fc.available_slots - 1 } := by
  obtain ⟨fc, hf, hpos, hdup, hb, hs2⟩ := book_class_ok h
  obtain ⟨i, hgi, hset⟩ := decFirst_eq_set _ _ _ hf
  subst hs2
  refine ⟨rfl, by rw [hb], by rw [hb], by rw [hb], by rw [hb], fc, i, hf, hgi,
    by rw [hb], by rw [hb], ?_⟩
  simpa using hset

theorem book_class_success_shape_witness :
    exampleAfter.bookings = seedState.bookings ++ [exampleBooking] ∧
    exampleBooking.booking_time = 100 ∧ exampleBooking.client_name = "Al" ∧
    exampleBooking.client_email = "a@x.com" ∧
    exampleBooking.id = seedState.bookings.length + 1 ∧
    ∃ fc i, seedState.classes.find? (fun c => c.id = 1) = some fc ∧
      seedState.classes[i]? = some fc ∧ exampleBooking.class_name = fc.name ∧
      exampleBooking.class_id = fc.id ∧
      exampleAfter.classes = seedState.classes.set i
        { fc with available_slots := fc.available_slots - 1 } :=
  book_class_success_shape seedState 1 "Al" "a@x.com" 100 exampleBooking
    exampleAfter (by decide)

/-- C4: in every reachable state the booking ids are strictly increasing in
creation order (hence unique), and every successful create-booking assigns
id equal to one greater than the current count of ledger entries. -/
theorem booking_ids_sequential (s : State) (h : Reachable s) :
    (s.bookings.map (fun b0 => b0.id)).Pairwise (fun x y => x < y) ∧
    ∀ cid n e t b s2, book_class s cid n e t = (.ok b, s2) →
      b.id = s.bookings.length + 1 := by
  refine ⟨idsOk_pairwise (reachable_idsOk s h), fun cid n e t b s2 h2 => ?_⟩
  obtain ⟨fc, _, _, _, hb, _⟩ := book_class_ok h2
  rw [hb]

theorem booking_ids_sequential_witness :
    (stepOne.bookings.map (fun b0 => b0.id)).Pairwise (fun x y => x < y) ∧
    exampleBooking2.id = stepOne.bookings.length + 1 := by
  have hreach : Reachable stepOne :=
    Reachable.step seedState (Op.book 1 "Al" "a@x.com" 100) Reachable.init
  exact ⟨(booking_ids_sequential stepOne hreach).1,
         (booking_ids_sequential stepOne hreach).2 2 "Bo" "b@x.com" 200
           exampleBooking2 exampleAfter2 (by decide)⟩

/-- C5: in every reachable state (the seeded ledger starts empty), at most
one Booking with any given (class_id, client_email) pair exists in the
ledger. -/
theorem bookings_pair_unique (s : State) (h : Reachable s) :
    s.bookings.Pairwise
      (fun a b => ¬(a.class_id = b.class_id ∧ a.client_email = b.client_email)) :=
  reachable_pairOk s h

theorem bookings_pair_unique_witness :
    stepTwo.bookings.Pairwise
      (fun a b => ¬(a.class_id = b.class_id ∧ a.client_email = b.client_email)) :=
  bookings_pair_unique stepTwo
    (Reachable.step stepOne (Op.book 2 "Bo" "b@x.com" 200)
      (Reachable.step seedState (Op.book 1 "Al" "a@x.com" 100) Reachable.init))

/-- C6: every failing create-booking attempt, whatever its error, leaves
the store unchanged: no booking is appended and no class is modified. -/
theorem book_class_failure_no_mutation (s : State) (cid : Int) (n e : String)
    (t : Int) (err : ApiErr) (h : (book_class s cid n e t).1 = .error err) :
    (book_class s cid n e t).2 = s :=
  book_class_err h

theorem book_class_failure_no_mutation_witness :
    (book_class seedState 999 "Al" "a@x.com" 0).1 = .error .ClassNotFound ∧
    (book_class seedState 999 "Al" "a@x.com" 0).2 = seedState :=
  ⟨by decide,
   book_class_failure_no_mutation seedState 999 "Al" "a@x.com" 0 .ClassNotFound
     (by decide)⟩

/-- C7: query-bookings with no filter returns the whole ledger in creation
order; with a (necessarily non-empty, boundary-validated) email filter it
returns exactly the ledger entries whose client_email equals the filter,
case-sensitively and in creation order; it never errors and never mutates
the store. -/
theorem get_bookings_spec (bs : List Booking) :
    get_bookings bs none = bs ∧
    (∀ e, e ≠ "" →
       get_bookings bs (some e) = bs.filter (fun b => b.client_email = e)) ∧
    (∀ s em, stepOp s (.queryBookings em) = s) := by
  refine ⟨rfl, fun e he => ?_, fun s em => rfl⟩
  simp [get_bookings, he]

theorem get_bookings_spec_witness :
    ("a@x.com" ≠ "") ∧
    get_bookings demoLedger (some "a@x.com") =
      demoLedger.filter (fun b => b.client_email = "a@x.com") :=
  ⟨by decide, (get_bookings_spec demoLedger).2.1 "a@x.com" (by decide)⟩

/-- C8: list-classes with a timezone identifier the database does not
recognize fails with InvalidTimezone and mutates nothing. -/
theorem get_classes_invalid_tz (db : TzDb) (s : State) (tz : String)
    (h : db tz = none) :
    get_classes db s.classes tz = .error .InvalidTimezone ∧
    stepOp s (.listClasses tz) = s :=
  ⟨by simp [get_classes, h], rfl⟩

theorem get_classes_invalid_tz_witness :
    db0 "Not/AZone" = none ∧
    (get_classes db0 seedState.classes "Not/AZone" = .error .InvalidTimezone ∧
     stepOp seedState (.listClasses "Not/AZone") = seedState) :=
  ⟨by decide, get_classes_invalid_tz db0 seedState "Not/AZone" (by decide)⟩

/-- C9: list-classes with a recognized timezone returns one view per class
in catalog order carrying id, name, instructor, formatted schedule,
capacity and available_slots; the formatted schedule is computed from the
stored absolute instant alone (changing the originating zone's offset while
keeping the instant changes nothing), and in the UTC zone it renders the
instant itself (offset 0), not the storage zone's wall-clock reading. -/
theorem get_classes_valid_tz (db : TzDb) (cs : List FitnessClass) (tz : String)
    (z : Tz) (h : db tz = some z) :
    get_classes db cs tz = .ok (cs.map (classView z)) ∧
    (∀ c : FitnessClass, ∀ o : Int,
       classView z { c with schedule := { instant := c.schedule.instant,
                                          origOffset := o } } = classView z c) ∧
    (∀ instant : Int,
       formatInTz instant { offset := 0, abbr := "UTC" } =
         toString instant ++ " UTC+0") := by
  refine ⟨by simp [get_classes, h], fun c o => rfl, fun instant => ?_⟩
  have h1 : formatInTz instant { offset := 0, abbr := "UTC" } =
      toString (instant + 0) ++ " " ++ "UTC" ++ "+0" := rfl
  rw [h1, Int.add_zero, String.append_assoc, String.append_assoc]
  rfl

theorem get_classes_valid_tz_witness :
    db0 "UTC" = some utcTz ∧
    (get_classes db0 seedState.classes "UTC" =
       .ok (seedState.classes.map (classView utcTz)) ∧
     (∀ c : FitnessClass, ∀ o : Int,
        classView utcTz { c with schedule := { instant := c.schedule.instant,
                                               origOffset := o } } =
          classView utcTz c) ∧
     (∀ instant : Int,
        formatInTz instant { offset := 0, abbr := "UTC" } =
          toString instant ++ " UTC+0")) :=
  ⟨by decide, get_classes_valid_tz db0 seedState.classes "UTC" utcTz (by decide)⟩

/-- C10: every create-booking call leaves the id, name, instructor,
schedule and capacity of every class position unchanged, and a successful
booking for class_id `cid` touches only the position of the looked-up class
(a class whose id is `cid`): there it changes nothing but `available_slots`,
stepping it down by one, and every other position is fully unchanged. -/
theorem book_class_frame (s : State) (cid : Int) (n e : String) (t : Int) :
    (∀ j : Nat,
       ((book_class s cid n e t).2.classes[j]?).map classFields =
         (s.classes[j]?).map classFields) ∧
    (∀ b s2, book_class s cid n e t = (.ok b, s2) →
       ∃ (i : Nat) (fc : FitnessClass),
         s.classes[i]? = some fc ∧ fc.id = cid ∧
         s2.classes[i]? =
           some { fc with available_slots := fc.available_slots - 1 } ∧
         ∀ j : Nat, j ≠ i → s2.classes[j]? = s.classes[j]?) := by
  constructor
  · intro j
    cases hr : book_class s cid n e t with
    | mk r s2 =>
        cases r with
        | error err =>
            have herr : (book_class s cid n e t).1 = Except.error err := by
              rw [hr]
            have hfr : (book_class s cid n e t).2 = s := book_class_err herr
            rw [hr] at hfr
            rw [hfr]
        | ok b =>
            obtain ⟨fc, hf, hpos, hdup, hb, hs2⟩ := book_class_ok hr
            obtain ⟨i, hgi, hset⟩ := decFirst_eq_set _ _ _ hf
            simp only [hs2, hset]
            by_cases hj : j = i
            · subst hj
              have hlen : j < s.classes.length := by
                rcases List.getElem?_eq_some.mp hgi with ⟨hl, _⟩
                exact hl
              rw [List.getElem?_set_eq_of_lt _ hlen, hgi]
              rfl
            · rw [List.getElem?_set_ne (show i ≠ j from fun hcon => hj hcon.symm)]
  · intro b s2 hr
    obtain ⟨fc, hf, hpos, hdup, hb, hs2⟩ := book_class_ok hr
    obtain ⟨i, hgi, hset⟩ := decFirst_eq_set _ _ _ hf
    have hfcid : fc.id = cid := by
      have := List.find?_some hf
      simpa using this
    have hlen : i < s.classes.length := by
      rcases List.getElem?_eq_some.mp hgi with ⟨hl, _⟩
      exact hl
    refine ⟨i, fc, hgi, hfcid, ?_, fun j hj => ?_⟩
    · simp only [hs2, hset]
      rw [List.getElem?_set_eq_of_lt _ hlen]
    · simp only [hs2, hset]
      exact List.getElem?_set_ne (show i ≠ j from fun hcon => hj hcon.symm)

theorem book_class_frame_witness :
    ((book_class seedState 1 "Al" "a@x.com" 100).2.classes[0]?).map classFields =
      (seedState.classes[0]?).map classFields ∧
    ∃ (i : Nat) (fc : FitnessClass),
      seedState.classes[i]? = some fc ∧ fc.id = 1 ∧
      exampleAfter.classes[i]? =
        some { fc with available_slots := fc.available_slots - 1 } ∧
      ∀ j : Nat, j ≠ i → exampleAfter.classes[j]? = seedState.classes[j]? :=
  ⟨(book_class_frame seedState 1 "Al" "a@x.com" 100).1 0,
   (book_class_frame seedState 1 "Al" "a@x.com" 100).2 exampleBooking
     exampleAfter (by decide)⟩

end FitnessApi
